import Mathlib

/-!
Verification of the core algorithms of `mysql-sniffer.go`: the MySQL frame
carver, the per-flow synchronization state machine of `processPacket`, the
query tokenizer/canonicalizer (`scanToken` / `cleanupQuery`), and the latency
summary `calculateTimes`.

Byte strings are modelled as `List Nat` (each element an octet value).
Machine `uint64` arithmetic is modelled as `Nat` with an explicit `% 2 ^ 64`
where wrap-around is reachable (the running `total` in `calculateTimes`);
counters bounded by the 100-slot array size are left as plain `Nat`.
Fallible paths (`log.Fatalf`) are modelled with `Option`: `none` marks a
branch on which the Go program would abort.
-/

/-- Token kind constants from the source. -/
def TOKEN_DEFAULT : Nat := 0

/-- Token kind: quoted literal. -/
def TOKEN_QUOTE : Nat := 1

/-- Token kind: numeric literal. -/
def TOKEN_NUMBER : Nat := 2

/-- Token kind: whitespace run. -/
def TOKEN_WHITESPACE : Nat := 3

/-- MySQL command byte for a query submission (`COM_QUERY = 3`). -/
def COM_QUERY : Int := 3

/-- Byte class: single or double quote (`query[0] == 39 || query[0] == 34`). -/
def isQuoteB (c : Nat) : Bool := c == 39 || c == 34

/-- Byte class: ASCII digit (`query[0] >= 48 && query[0] <= 57`). -/
def isDigitB (c : Nat) : Bool := 48 ≤ c && c ≤ 57

/-- Byte class: whitespace (`query[0] == 32 || (query[0] >= 9 && query[0] <= 13)`). -/
def isWsB (c : Nat) : Bool := c == 32 || (9 ≤ c && c ≤ 13)

/-- Loop of `scanToken`'s quote case: `i` is the running index, `escaped` the
escape flag; returns the token length.  A byte 92 sets `escaped`
unconditionally, an unescaped quote byte ends the token at index `i`
(the closing quote is not included in the returned length). -/
def scanQuoteLen : List Nat → Nat → Bool → Nat
  | [], i, _ => i
  | c :: rs, i, escaped =>
    if isQuoteB c then
      if escaped then scanQuoteLen rs (i + 1) false else i
    else if c == 92 then scanQuoteLen rs (i + 1) true
    else scanQuoteLen rs (i + 1) false

/-- Loop of `scanToken`'s number case: extends while bytes are digits. -/
def scanNumberLen : List Nat → Nat → Nat
  | [], i => i
  | c :: rs, i => if isDigitB c then scanNumberLen rs (i + 1) else i

/-- Loop of `scanToken`'s whitespace case: extends while bytes are whitespace. -/
def scanWsLen : List Nat → Nat → Nat
  | [], i => i
  | c :: rs, i => if isWsB c then scanWsLen rs (i + 1) else i

/-- Loop of `scanToken`'s default case.  The first switch case
(`query[i] >= 48 && query[i] <= 57` with comment "Numbers, allow.") lets a
digit continue the run; it shadows the digit test of the second case, so the
run only ends at a quote or whitespace byte. -/
def scanDefaultLen : List Nat → Nat → Nat
  | [], i => i
  | c :: rs, i =>
    if isDigitB c then scanDefaultLen rs (i + 1)
    else if isQuoteB c || isDigitB c || isWsB c then i
    else scanDefaultLen rs (i + 1)

/-- `scanToken` classifies the run starting at the head byte and returns its
length and kind.  `none` models the `log.Fatalf("scanToken called with empty
query")` branch. -/
def scanToken : List Nat → Option (Nat × Nat)
  | [] => none
  | c :: rest =>
    if isQuoteB c then some (scanQuoteLen rest 1 false, TOKEN_QUOTE)
    else if isDigitB c then some (scanNumberLen rest 1, TOKEN_NUMBER)
    else if isWsB c then some (scanWsLen rest 1, TOKEN_WHITESPACE)
    else some (scanDefaultLen rest 1, TOKEN_DEFAULT)

/-- The piece appended to `qspace` for one token of `cleanupQuery`: the raw
bytes for a default run, `"?"` (63) for a number or quote token, `" "` (32)
for whitespace.  `none` models the `log.Fatalf("scanToken returned invalid
token type")` branch. -/
def pieceOf (q : List Nat) (len ty : Nat) : Option (List Nat) :=
  if ty == TOKEN_DEFAULT then some (q.take len)
  else if ty == TOKEN_NUMBER || ty == TOKEN_QUOTE then some [63]
  else if ty == TOKEN_WHITESPACE then some [32]
  else none

/-- The token loop of `cleanupQuery`, with explicit fuel (the loop advances by
at least one byte per iteration, so fuel `q.length` suffices; see
`cleanupTokensF_isSome`).  Returns the list of pieces of `qspace`. -/
def cleanupTokensF : Nat → List Nat → Option (List (List Nat))
  | _, [] => some []
  | 0, _ :: _ => none
  | fuel + 1, c :: rest =>
    match scanToken (c :: rest) with
    | none => none
    | some (len, ty) =>
      match pieceOf (c :: rest) len ty with
      | none => none
      | some piece =>
        match cleanupTokensF fuel ((c :: rest).drop len) with
        | none => none
        | some ps => some (piece :: ps)

/-- The token loop of `cleanupQuery` run to completion. -/
def cleanupTokens (q : List Nat) : Option (List (List Nat)) :=
  cleanupTokensF q.length q

/-- First split of a byte string at a separator byte: `some (before, after)`
with the separator removed, or `none` when the separator does not occur. -/
def splitFirst (sep : Nat) : List Nat → Option (List Nat × List Nat)
  | [] => none
  | c :: rs =>
    if c == sep then some ([], rs)
    else (splitFirst sep rs).map (fun p => (c :: p.1, p.2))

/-- `strings.SplitN(s, sep, n)` for a single-byte separator: at most `n`
substrings, the last one the unsplit remainder. -/
def splitNBy (sep : Nat) : Nat → List Nat → List (List Nat)
  | 0, _ => []
  | 1, s => [s]
  | n + 2, s =>
    match splitFirst sep s with
    | none => [s]
    | some (pre, post) => pre :: splitNBy sep (n + 1) post

/-- The route-comment rewrite at the end of `cleanupQuery`: when the joined
text has the shape `tok0 /* ann */ rest` (first five space-separated fields,
second exactly `/*` (47,42), fourth exactly `*/` (42,47)) and `ann` contains a
colon (58), the text up to the first colon is stripped from the annotation. -/
def routeRewrite (tmp : List Nat) : List Nat :=
  let parts := splitNBy 32 5 tmp
  if 5 ≤ parts.length ∧ parts.getD 1 [] = [47, 42] ∧ parts.getD 3 [] = [42, 47] then
    if (parts.getD 2 []).contains 58 then
      parts.getD 0 [] ++ [32, 47, 42, 32] ++ (splitNBy 58 2 (parts.getD 2 [])).getD 1 []
        ++ [32, 42, 47, 32] ++ parts.getD 4 []
    else tmp
  else tmp

/-- The joined text of `cleanupQuery` before the route rewrite
(`strings.Join(qspace, "")`). -/
def canonJoin (q : List Nat) : List Nat := ((cleanupTokens q).getD []).flatten

/-- `cleanupQuery`: tokenize, replace/collapse, join, then route rewrite.
`none` marks the (unreachable) `log.Fatalf` branches. -/
def cleanupQueryOpt (q : List Nat) : Option (List Nat) :=
  match cleanupTokens q with
  | none => none
  | some ps => some (routeRewrite ps.flatten)

/-- Total version of `cleanupQuery` (the `Option` is always `some`). -/
def cleanupQuery (q : List Nat) : List Nat := (cleanupQueryOpt q).getD []

/-- `carvePacket` tries to pull one MySQL frame out of a buffer.  Returns
`(ptype, data, newbuf)`: the command type (`-1` for "incomplete"), the payload
slice, and the buffer after carving (`none` models the Go code setting the
slice to `nil`). -/
def carvePacket (buf : List Nat) : Int × List Nat × Option (List Nat) :=
  let datalen := buf.length
  if datalen < 5 then (-1, [], some buf)
  else
    let size := buf.getD 0 0 + buf.getD 1 0 * 256 + buf.getD 2 0 * 65536
    if size = 0 ∨ datalen < size + 4 then (-1, [], some buf)
    else
      let endp := size + 4
      let ptype : Int := buf.getD 4 0
      let data := (buf.drop 5).take (size - 1)
      let newbuf := if datalen ≤ endp then none else some (buf.drop endp)
      (ptype, data, newbuf)

/-- The per-flow state of a `source`, restricted to the fields the
synchronization logic reads or writes: the two direction buffers (`none`
models a `nil` slice), the `synced` flag, whether `reqSent` is set (the
timestamp value itself feeds only the latency arrays, which are outside this
state), and the relevant counters (`stats.desyncs`, `stats.packets.rcvd`,
`stats.packets.rcvd_sync`, `querycount`). -/
structure SrcState where
  synced : Bool
  reqbuffer : Option (List Nat)
  resbuffer : Option (List Nat)
  reqSentSet : Bool
  desyncs : Nat
  rcvd : Nat
  rcvdSync : Nat
  querycount : Nat
deriving Repr, DecidableEq

/-- A fresh `source` as created by `handlePacket`:
`&source{src: src, srcip: srcip, synced: false}` (all buffers nil). -/
def newSource : SrcState :=
  { synced := false, reqbuffer := none, resbuffer := none, reqSentSet := false
    desyncs := 0, rcvd := 0, rcvdSync := 0, querycount := 0 }

/-- The tail of `processPacket` after the synchronization check: return on
"incomplete"; a response clears `reqSent` (the latency sample it records lives
outside the modelled state) or is ignored when no request is outstanding; a
request sets `reqSent` and counts the query (the key building and aggregation
write only fields outside the modelled state). -/
def processAfterCarve (request : Bool) (ptype : Int) (_pdata : List Nat)
    (s : SrcState) : SrcState :=
  if ptype = -1 then s
  else if request = false then
    if s.reqSentSet = false then s
    else { s with reqSentSet := false }
  else
    { s with reqSentSet := true, querycount := s.querycount + 1 }

/-- `processPacket`: count the packet; on a request with a leftover response
buffer record a desync (counter, drop the response buffer, unsync); assign the
delivered bytes to the direction's buffer and carve from it; while unsynced
accept only a request carving a `COM_QUERY` frame (anything else drops both
buffers and returns); then the post-carve processing. -/
def processPacket (request : Bool) (data : List Nat) (s0 : SrcState) : SrcState :=
  let s1 := { s0 with
    rcvd := s0.rcvd + 1
    rcvdSync := if s0.synced then s0.rcvdSync + 1 else s0.rcvdSync }
  let s2 :=
    if request then
      if s1.resbuffer ≠ none then
        { s1 with desyncs := s1.desyncs + 1, resbuffer := none, synced := false }
      else s1
    else s1
  let carved := carvePacket data
  let ptype := carved.1
  let pdata := carved.2.1
  let s3 :=
    if request then { s2 with reqbuffer := carved.2.2 }
    else { s2 with resbuffer := carved.2.2 }
  if s3.synced = false then
    if ¬ (request = true ∧ ptype = COM_QUERY) then
      { s3 with reqbuffer := none, resbuffer := none }
    else processAfterCarve request ptype pdata { s3 with synced := true }
  else processAfterCarve request ptype pdata s3

/-- Accumulator of the loop in `calculateTimes`:
`min, max, counts, total` (all `uint64` in the source) and the `has_min`
flag. -/
structure CTAcc where
  minv : Nat
  maxv : Nat
  counts : Nat
  total : Nat
  hasMin : Bool
deriving Repr, DecidableEq

/-- One iteration of the loop in `calculateTimes`: skip the zero sentinel,
update min (`val < min || !has_min`), max (`val > max`), count and total.
`total` is a `uint64` whose addition can wrap, hence the `% 2 ^ 64`; `counts`
is bounded by the 100 slots of the array. -/
def ctStep (a : CTAcc) (val : Nat) : CTAcc :=
  if val = 0 then a
  else
    let a1 := if val < a.minv ∨ a.hasMin = false then
        { a with hasMin := true, minv := val }
      else a
    let a2 := if a1.maxv < val then { a1 with maxv := val } else a1
    { a2 with counts := a2.counts + 1, total := (a2.total + val) % 2 ^ 64 }

/-- `calculateTimes`: fold the loop over the samples, integer-divide the total
by the count when any sample was seen, and convert each of min/avg/max from
nanoseconds to milliseconds (`float64(x) / 1000000`, modelled exactly in ℚ). -/
def calculateTimes (timings : List Nat) : ℚ × ℚ × ℚ :=
  let a := timings.foldl ctStep ⟨0, 0, 0, 0, false⟩
  let avg := if 0 < a.counts then a.total / a.counts else 0
  ((a.minv : ℚ) / 1000000, (avg : ℚ) / 1000000, (a.maxv : ℚ) / 1000000)

/-- Continuation predicate of the default scan: the run goes on while the byte
is neither a quote nor whitespace (digits continue the run: "Numbers, allow."). -/
def contDefault (c : Nat) : Bool := !(isQuoteB c || isWsB c)

/-- Shape invariant of the joined token-pass output ("canonical text").  The
flag `sp` records whether the previous byte was a space.  A canonical text
contains no quote bytes, no whitespace bytes other than the space 32, no two
adjacent spaces, and no digit immediately after a space. -/
def Good : Bool → List Nat → Bool
  | _, [] => true
  | sp, c :: rs =>
    if c == 32 then !sp && Good true rs
    else (!(isQuoteB c) && !(isWsB c) && !(sp && isDigitB c)) && Good false rs

/-- Second half of the shape invariant: the text does not begin with a digit. -/
def headNotDigit : List Nat → Bool
  | [] => true
  | c :: _ => !(isDigitB c)

/-! ## Generic list facts used by several proofs -/

theorem drop_len_takeWhile (p : Nat → Bool) (l : List Nat) :
    l.drop (l.takeWhile p).length = l.dropWhile p := by
  induction l with
  | nil => rfl
  | cons c rs ih =>
    by_cases h : p c
    · simp [List.takeWhile_cons, List.dropWhile_cons, h, ih]
    · simp [List.takeWhile_cons, List.dropWhile_cons, h]

theorem take_len_takeWhile (p : Nat → Bool) (l : List Nat) :
    l.take (l.takeWhile p).length = l.takeWhile p := by
  induction l with
  | nil => rfl
  | cons c rs ih =>
    by_cases h : p c
    · simp [List.takeWhile_cons, h, ih]
    · simp [List.takeWhile_cons, h]

theorem length_takeWhile_le_len (p : Nat → Bool) (l : List Nat) :
    (l.takeWhile p).length ≤ l.length := by
  induction l with
  | nil => simp
  | cons c rs ih =>
    by_cases h : p c
    · simp only [List.takeWhile_cons, h, if_true, List.length_cons]
      omega
    · simp [List.takeWhile_cons, h]

theorem dropWhile_head_not (p : Nat → Bool) (l : List Nat) :
    l.dropWhile p = [] ∨ ∃ c rs, l.dropWhile p = c :: rs ∧ p c = false := by
  induction l with
  | nil => left; rfl
  | cons c rs ih =>
    by_cases h : p c
    · simpa [List.dropWhile_cons, h] using ih
    · right; exact ⟨c, rs, by simp [List.dropWhile_cons, h], by simp [h]⟩

/-! ## Scan-length lemmas: bounds and characterizations -/

theorem scanQuoteLen_bounds (rs : List Nat) (i : Nat) (e : Bool) :
    i ≤ scanQuoteLen rs i e ∧ scanQuoteLen rs i e ≤ i + rs.length := by
  induction rs generalizing i e with
  | nil => simp [scanQuoteLen]
  | cons c rest ih =>
    simp only [scanQuoteLen, List.length_cons]
    split
    · split
      · have h := ih (i + 1) false
        omega
      · omega
    · split
      · have h := ih (i + 1) true
        omega
      · have h := ih (i + 1) false
        omega

/-- A digit byte is neither a quote nor a whitespace byte. -/
theorem digit_not_quote_ws (c : Nat) (h : isDigitB c = true) :
    isQuoteB c = false ∧ isWsB c = false := by
  simp only [isDigitB, Bool.and_eq_true, decide_eq_true_eq] at h
  simp only [isQuoteB, isWsB, Bool.or_eq_false_iff, beq_eq_false_iff_ne, ne_eq,
    Bool.and_eq_false_iff, decide_eq_false_iff_not, not_le]
  omega

/-- The default run continues on a byte iff that byte is neither a quote nor
whitespace; in particular the shadowed digit test never changes the outcome. -/
theorem contDefault_digit (c : Nat) (h : isDigitB c = true) : contDefault c = true := by
  have h2 := digit_not_quote_ws c h
  simp [contDefault, h2.1, h2.2]

theorem scanNumberLen_eq (rs : List Nat) (i : Nat) :
    scanNumberLen rs i = i + (rs.takeWhile isDigitB).length := by
  induction rs generalizing i with
  | nil => simp [scanNumberLen]
  | cons c rest ih =>
    by_cases h : isDigitB c = true
    · rw [scanNumberLen, if_pos h, List.takeWhile_cons, if_pos h, List.length_cons, ih]
      omega
    · rw [scanNumberLen, if_neg h, List.takeWhile_cons, if_neg h]
      rfl

theorem scanWsLen_eq (rs : List Nat) (i : Nat) :
    scanWsLen rs i = i + (rs.takeWhile isWsB).length := by
  induction rs generalizing i with
  | nil => simp [scanWsLen]
  | cons c rest ih =>
    by_cases h : isWsB c = true
    · rw [scanWsLen, if_pos h, List.takeWhile_cons, if_pos h, List.length_cons, ih]
      omega
    · rw [scanWsLen, if_neg h, List.takeWhile_cons, if_neg h]
      rfl

theorem scanDefaultLen_eq (rs : List Nat) (i : Nat) :
    scanDefaultLen rs i = i + (rs.takeWhile contDefault).length := by
  induction rs generalizing i with
  | nil => simp [scanDefaultLen]
  | cons c rest ih =>
    by_cases hd : isDigitB c = true
    · rw [scanDefaultLen, if_pos hd, List.takeWhile_cons, if_pos (contDefault_digit c hd),
        List.length_cons, ih]
      omega
    · by_cases hstop : (isQuoteB c || isDigitB c || isWsB c) = true
      · have hc : contDefault c = false := by
          simp only [Bool.or_eq_true] at hstop
          rcases hstop with (h | h) | h
          · simp [contDefault, h]
          · exact absurd h hd
          · simp [contDefault, h]
        rw [scanDefaultLen, if_neg hd, if_pos hstop, List.takeWhile_cons, if_neg (by simp [hc])]
        rfl
      · have hc : contDefault c = true := by
          simp only [Bool.or_eq_true, not_or, Bool.not_eq_true] at hstop
          simp [contDefault, hstop.1.1, hstop.2]
        rw [scanDefaultLen, if_neg hd, if_neg hstop, List.takeWhile_cons, if_pos hc,
          List.length_cons, ih]
        omega

/-! ## Totality facts for `scanToken` and the `cleanupQuery` loop -/

/-- On non-empty input `scanToken` always succeeds, with `1 ≤ length ≤ |input|`,
a kind among the four token constants, and a defined `qspace` piece. -/
theorem scanToken_spec (c : Nat) (rest : List Nat) :
    ∃ len ty, scanToken (c :: rest) = some (len, ty) ∧ 1 ≤ len ∧
      len ≤ (c :: rest).length ∧ ty ≤ 3 ∧ (pieceOf (c :: rest) len ty).isSome = true := by
  simp only [scanToken, List.length_cons]
  split
  · refine ⟨scanQuoteLen rest 1 false, TOKEN_QUOTE, rfl, ?_, ?_, by decide, by rfl⟩
    · exact (scanQuoteLen_bounds rest 1 false).1
    · have h := (scanQuoteLen_bounds rest 1 false).2
      omega
  · split
    · refine ⟨scanNumberLen rest 1, TOKEN_NUMBER, rfl, ?_, ?_, by decide, by rfl⟩
      · rw [scanNumberLen_eq]
        omega
      · rw [scanNumberLen_eq]
        have h := length_takeWhile_le_len isDigitB rest
        omega
    · split
      · refine ⟨scanWsLen rest 1, TOKEN_WHITESPACE, rfl, ?_, ?_, by decide, by rfl⟩
        · rw [scanWsLen_eq]
          omega
        · rw [scanWsLen_eq]
          have h := length_takeWhile_le_len isWsB rest
          omega
      · refine ⟨scanDefaultLen rest 1, TOKEN_DEFAULT, rfl, ?_, ?_, by decide, by rfl⟩
        · rw [scanDefaultLen_eq]
          omega
        · rw [scanDefaultLen_eq]
          have h := length_takeWhile_le_len contDefault rest
          omega

/-- Facts about a successful `scanToken` result. -/
theorem scanToken_facts (c : Nat) (rest : List Nat) (len ty : Nat)
    (hs : scanToken (c :: rest) = some (len, ty)) :
    1 ≤ len ∧ len ≤ (c :: rest).length ∧ ty ≤ 3 ∧
      (pieceOf (c :: rest) len ty).isSome = true := by
  obtain ⟨len2, ty2, hs2, h1, h2, h3, h4⟩ := scanToken_spec c rest
  rw [hs2] at hs
  obtain ⟨rfl, rfl⟩ : len2 = len ∧ ty2 = ty := by
    have h := Option.some.inj hs
    exact ⟨congrArg Prod.fst h, congrArg Prod.snd h⟩
  exact ⟨h1, h2, h3, h4⟩

/-- The fuelled token loop does not depend on the fuel once the fuel covers
the input length. -/
theorem cleanupTokensF_fuel (f : Nat) : ∀ (g : Nat) (q : List Nat),
    q.length ≤ f → q.length ≤ g → cleanupTokensF f q = cleanupTokensF g q := by
  induction f with
  | zero =>
    intro g q hf hg
    have hq : q = [] := List.length_eq_zero.mp (Nat.le_zero.mp hf)
    subst hq
    simp [cleanupTokensF]
  | succ f ih =>
    intro g q hf hg
    match q with
    | [] => simp [cleanupTokensF]
    | c :: rest =>
      match g with
      | 0 => simp at hg
      | g + 1 =>
        obtain ⟨len, ty, hs, h1, h2, h3, h4⟩ := scanToken_spec c rest
        obtain ⟨piece, hp⟩ := Option.isSome_iff_exists.mp h4
        simp only [cleanupTokensF, hs, hp]
        have hd : ((c :: rest).drop len).length ≤ f := by
          simp only [List.length_drop, List.length_cons] at *
          omega
        have hd2 : ((c :: rest).drop len).length ≤ g := by
          simp only [List.length_drop, List.length_cons] at *
          omega
        rw [ih g ((c :: rest).drop len) hd hd2]

/-- The token loop always succeeds when given fuel covering the input. -/
theorem cleanupTokensF_isSome (f : Nat) : ∀ q : List Nat,
    q.length ≤ f → (cleanupTokensF f q).isSome = true := by
  induction f with
  | zero =>
    intro q hf
    have hq : q = [] := List.length_eq_zero.mp (Nat.le_zero.mp hf)
    subst hq
    rfl
  | succ f ih =>
    intro q hf
    match q with
    | [] => rfl
    | c :: rest =>
      obtain ⟨len, ty, hs, h1, h2, h3, h4⟩ := scanToken_spec c rest
      obtain ⟨piece, hp⟩ := Option.isSome_iff_exists.mp h4
      simp only [cleanupTokensF, hs, hp]
      have hd : ((c :: rest).drop len).length ≤ f := by
        simp only [List.length_drop, List.length_cons] at *
        omega
      have hrec := ih ((c :: rest).drop len) hd
      obtain ⟨ps, hps⟩ := Option.isSome_iff_exists.mp hrec
      rw [hps]
      rfl

/-- `cleanupTokens` always succeeds: the loop of `cleanupQuery` terminates. -/
theorem cleanupTokens_isSome (q : List Nat) : (cleanupTokens q).isSome = true :=
  cleanupTokensF_isSome q.length q le_rfl

/-- Unfolding one token step of `cleanupTokens`. -/
theorem cleanupTokens_cons (c : Nat) (rest : List Nat) (len ty : Nat) (piece : List Nat)
    (hs : scanToken (c :: rest) = some (len, ty))
    (hp : pieceOf (c :: rest) len ty = some piece) :
    cleanupTokens (c :: rest) =
      (cleanupTokens ((c :: rest).drop len)).map (fun ps => piece :: ps) := by
  obtain ⟨h1, h2, h3, h4⟩ := scanToken_facts c rest len ty hs
  simp only [cleanupTokens, List.length_cons, cleanupTokensF, hs, hp]
  have hlen : ((c :: rest).drop len).length ≤ rest.length := by
    simp only [List.length_drop, List.length_cons]
    omega
  rw [cleanupTokensF_fuel rest.length ((c :: rest).drop len).length ((c :: rest).drop len)
    hlen le_rfl]
  cases h : cleanupTokensF ((c :: rest).drop len).length ((c :: rest).drop len) with
  | none => rfl
  | some ps => rfl

/-- Unfolding one token step of the joined canonical text. -/
theorem canonJoin_cons (c : Nat) (rest : List Nat) (len ty : Nat) (piece : List Nat)
    (hs : scanToken (c :: rest) = some (len, ty))
    (hp : pieceOf (c :: rest) len ty = some piece) :
    canonJoin (c :: rest) = piece ++ canonJoin ((c :: rest).drop len) := by
  have hrec := cleanupTokens_isSome ((c :: rest).drop len)
  obtain ⟨ps, hps⟩ := Option.isSome_iff_exists.mp hrec
  rw [canonJoin, cleanupTokens_cons c rest len ty piece hs hp, hps]
  simp [canonJoin, hps]

/-- `cleanupQuery` is the route rewrite of the joined canonical text. -/
theorem cleanupQuery_eq (q : List Nat) : cleanupQuery q = routeRewrite (canonJoin q) := by
  obtain ⟨ps, hps⟩ := Option.isSome_iff_exists.mp (cleanupTokens_isSome q)
  simp only [cleanupQuery, cleanupQueryOpt, canonJoin, hps, Option.getD_some]

/-- The `Option` layer of `cleanupQuery` never hits a fatal branch. -/
theorem cleanupQueryOpt_isSome (q : List Nat) : (cleanupQueryOpt q).isSome = true := by
  obtain ⟨ps, hps⟩ := Option.isSome_iff_exists.mp (cleanupTokens_isSome q)
  simp [cleanupQueryOpt, hps]

/-! ## The canonical-shape invariant and idempotence of the token pass -/

theorem takeWhile_dropWhile_nil (p : Nat → Bool) (l : List Nat) :
    (l.dropWhile p).takeWhile p = [] := by
  rcases dropWhile_head_not p l with h | ⟨c, rs, h, hc⟩
  · simp [h]
  · simp [h, List.takeWhile_cons, hc]

theorem length_dropWhile_le_len (p : Nat → Bool) (l : List Nat) :
    (l.dropWhile p).length ≤ l.length := by
  rw [← drop_len_takeWhile p l, List.length_drop]
  omega

theorem mem_takeWhile_true (p : Nat → Bool) (l : List Nat) (a : Nat)
    (h : a ∈ l.takeWhile p) : p a = true := by
  induction l with
  | nil => simp at h
  | cons c rs ih =>
    by_cases hc : p c
    · rw [List.takeWhile_cons, if_pos hc] at h
      rcases List.mem_cons.mp h with rfl | h2
      · exact hc
      · exact ih h2
    · rw [List.takeWhile_cons, if_neg hc] at h
      exact absurd h (List.not_mem_nil a)

/-- A byte on which the default run stops (a quote or whitespace byte) is not
a digit. -/
theorem not_contDefault_not_digit (h : Nat) (hc : contDefault h = false) :
    isDigitB h = false := by
  by_cases hd : isDigitB h = true
  · have h2 := digit_not_quote_ws h hd
    simp [contDefault, h2.1, h2.2] at hc
  · simpa using hd

/-- Whitespace bytes are exactly the bytes 32 and 9–13; none is a digit. -/
theorem ws_not_digit (c : Nat) (h : isWsB c = true) : isDigitB c = false := by
  simp only [isWsB, Bool.or_eq_true, beq_iff_eq, Bool.and_eq_true, decide_eq_true_eq] at h
  simp only [isDigitB, Bool.and_eq_false_iff, decide_eq_false_iff_not, not_le]
  omega

theorem good_cons_space (sp : Bool) (rs : List Nat) :
    Good sp (32 :: rs) = (!sp && Good true rs) := by
  simp [Good]

theorem good_cons_other (sp : Bool) (c : Nat) (rs : List Nat) (hc : (c == 32) = false) :
    Good sp (c :: rs) =
      ((!(isQuoteB c) && !(isWsB c) && !(sp && isDigitB c)) && Good false rs) := by
  simp only [Good, hc, Bool.false_eq_true, if_false]

/-- A non-whitespace byte is not the space byte. -/
theorem not_ws_ne_space (c : Nat) (hw : isWsB c = false) : (c == 32) = false := by
  cases he : c == 32
  · rfl
  · rw [beq_iff_eq] at he
    subst he
    simp [isWsB] at hw

/-- `Good true` (right after a space) implies `Good false`, a non-digit head,
and a non-whitespace head. -/
theorem good_true_shape (l : List Nat) (h : Good true l = true) :
    Good false l = true ∧ headNotDigit l = true ∧ l.takeWhile isWsB = [] := by
  match l with
  | [] => exact ⟨rfl, rfl, rfl⟩
  | c :: rs =>
    by_cases hc : (c == 32) = true
    · rw [beq_iff_eq] at hc
      subst hc
      rw [good_cons_space] at h
      simp at h
    · have hc2 : (c == 32) = false := by
        cases he : c == 32
        · rfl
        · exact absurd he hc
      rw [good_cons_other true c rs hc2] at h
      simp only [Bool.and_eq_true, Bool.not_eq_true'] at h
      obtain ⟨⟨⟨hq, hw⟩, hd⟩, hg⟩ := h
      have hd2 : isDigitB c = false := by simpa using hd
      refine ⟨?_, ?_, ?_⟩
      · rw [good_cons_other false c rs hc2]
        simp [hq, hw, hg]
      · simp [headNotDigit, hd2]
      · simp [List.takeWhile_cons, hw]

/-- Prepending a run of non-quote non-whitespace bytes preserves `Good false`. -/
theorem good_append_run (run z : List Nat)
    (hrun : ∀ a ∈ run, contDefault a = true) (hz : Good false z = true) :
    Good false (run ++ z) = true := by
  induction run with
  | nil => simpa using hz
  | cons a rs ih =>
    have ha := hrun a (List.mem_cons_self a rs)
    simp only [contDefault, Bool.not_eq_true', Bool.or_eq_false_iff] at ha
    have ha32 : (a == 32) = false := not_ws_ne_space a ha.2
    rw [List.cons_append, good_cons_other false a (rs ++ z) ha32]
    have hrest := ih (fun b hb => hrun b (List.mem_cons_of_mem a hb))
    simp [ha.1, ha.2, hrest]

theorem scanToken_quote_eq (c : Nat) (rest : List Nat) (hq : isQuoteB c = true) :
    scanToken (c :: rest) = some (scanQuoteLen rest 1 false, TOKEN_QUOTE) := by
  simp [scanToken, hq]

theorem scanToken_number_eq (c : Nat) (rest : List Nat) (hq : isQuoteB c = false)
    (hd : isDigitB c = true) :
    scanToken (c :: rest) = some (scanNumberLen rest 1, TOKEN_NUMBER) := by
  simp [scanToken, hq, hd]

theorem scanToken_ws_eq (c : Nat) (rest : List Nat) (hq : isQuoteB c = false)
    (hd : isDigitB c = false) (hw : isWsB c = true) :
    scanToken (c :: rest) = some (scanWsLen rest 1, TOKEN_WHITESPACE) := by
  simp [scanToken, hq, hd, hw]

theorem scanToken_default_eq (c : Nat) (rest : List Nat) (hq : isQuoteB c = false)
    (hd : isDigitB c = false) (hw : isWsB c = false) :
    scanToken (c :: rest) = some (scanDefaultLen rest 1, TOKEN_DEFAULT) := by
  simp [scanToken, hq, hd, hw]

theorem drop_scanWsLen (c : Nat) (rest : List Nat) :
    (c :: rest).drop (scanWsLen rest 1) = rest.dropWhile isWsB := by
  rw [scanWsLen_eq, Nat.add_comm, List.drop_succ_cons, drop_len_takeWhile]

theorem drop_scanDefaultLen (c : Nat) (rest : List Nat) :
    (c :: rest).drop (scanDefaultLen rest 1) = rest.dropWhile contDefault := by
  rw [scanDefaultLen_eq, Nat.add_comm, List.drop_succ_cons, drop_len_takeWhile]

theorem take_scanDefaultLen (c : Nat) (rest : List Nat) :
    (c :: rest).take (scanDefaultLen rest 1) = c :: rest.takeWhile contDefault := by
  rw [scanDefaultLen_eq, Nat.add_comm, List.take_succ_cons, take_len_takeWhile]

/-- The joined output of the token pass satisfies the canonical-shape
invariant.  The flag `sp` may be taken `true` only when the input does not
begin with a whitespace byte (as after a maximal whitespace run). -/
theorem canonJoin_good (n : Nat) : ∀ (q : List Nat) (sp : Bool), q.length ≤ n →
    (sp = true → q.takeWhile isWsB = []) →
    Good sp (canonJoin q) = true ∧ headNotDigit (canonJoin q) = true := by
  induction n with
  | zero =>
    intro q sp hlen hsp
    have hq : q = [] := List.length_eq_zero.mp (Nat.le_zero.mp hlen)
    subst hq
    exact ⟨rfl, rfl⟩
  | succ n ih =>
    intro q sp hlen hsp
    cases q with
    | nil => exact ⟨rfl, rfl⟩
    | cons c rest =>
      simp only [List.length_cons] at hlen
      by_cases hq : isQuoteB c = true
      · have hs := scanToken_quote_eq c rest hq
        have hp : pieceOf (c :: rest) (scanQuoteLen rest 1 false) TOKEN_QUOTE = some [63] := rfl
        have hstep := canonJoin_cons c rest _ _ [63] hs hp
        have hlen2 : ((c :: rest).drop (scanQuoteLen rest 1 false)).length ≤ n := by
          have hb := (scanQuoteLen_bounds rest 1 false).1
          simp only [List.length_drop, List.length_cons]
          omega
        have hz := ih ((c :: rest).drop (scanQuoteLen rest 1 false)) false hlen2
          (by intro h; simp at h)
        rw [hstep]
        constructor
        · rw [List.singleton_append, good_cons_other sp 63 _ (by decide)]
          simp [isQuoteB, isWsB, isDigitB, hz.1]
        · simp [headNotDigit, isDigitB]
      · have hq2 : isQuoteB c = false := by simpa using hq
        by_cases hd : isDigitB c = true
        · have hs := scanToken_number_eq c rest hq2 hd
          have hp : pieceOf (c :: rest) (scanNumberLen rest 1) TOKEN_NUMBER = some [63] := rfl
          have hstep := canonJoin_cons c rest _ _ [63] hs hp
          have hlen2 : ((c :: rest).drop (scanNumberLen rest 1)).length ≤ n := by
            rw [scanNumberLen_eq]
            simp only [List.length_drop, List.length_cons]
            omega
          have hz := ih ((c :: rest).drop (scanNumberLen rest 1)) false hlen2
            (by intro h; simp at h)
          rw [hstep]
          constructor
          · rw [List.singleton_append, good_cons_other sp 63 _ (by decide)]
            simp [isQuoteB, isWsB, isDigitB, hz.1]
          · simp [headNotDigit, isDigitB]
        · have hdf : isDigitB c = false := by simpa using hd
          by_cases hw : isWsB c = true
          · -- whitespace token: piece " ", the rest starts with a non-ws byte
            have hsp2 : sp = false := by
              by_cases hsp3 : sp = true
              · have h2 := hsp hsp3
                rw [List.takeWhile_cons, if_pos hw] at h2
                simp at h2
              · simpa using hsp3
            have hqf : isQuoteB c = false := by simpa using hq
            have hs := scanToken_ws_eq c rest hqf hdf hw
            have hp : pieceOf (c :: rest) (scanWsLen rest 1) TOKEN_WHITESPACE = some [32] := rfl
            have hstep := canonJoin_cons c rest _ _ [32] hs hp
            rw [drop_scanWsLen] at hstep
            have hlen2 : (rest.dropWhile isWsB).length ≤ n := by
              have hb := length_dropWhile_le_len isWsB rest
              omega
            have hz := ih (rest.dropWhile isWsB) true hlen2
              (fun _ => takeWhile_dropWhile_nil isWsB rest)
            rw [hstep, hsp2]
            constructor
            · rw [List.singleton_append, good_cons_space]
              simp [hz.1]
            · simp [headNotDigit, isDigitB]
          · -- default token: piece is the raw run
            have hqf : isQuoteB c = false := by simpa using hq
            have hwf : isWsB c = false := by simpa using hw
            have hs := scanToken_default_eq c rest hqf hdf hwf
            have hp : pieceOf (c :: rest) (scanDefaultLen rest 1) TOKEN_DEFAULT =
                some ((c :: rest).take (scanDefaultLen rest 1)) := rfl
            have hstep := canonJoin_cons c rest _ _ _ hs hp
            rw [drop_scanDefaultLen, take_scanDefaultLen] at hstep
            have hlen2 : (rest.dropWhile contDefault).length ≤ n := by
              have hb := length_dropWhile_le_len contDefault rest
              omega
            have hz := ih (rest.dropWhile contDefault) false hlen2 (by intro h; simp at h)
            rw [hstep]
            have hgr : Good false (rest.takeWhile contDefault ++
                canonJoin (rest.dropWhile contDefault)) = true :=
              good_append_run _ _ (fun a ha => mem_takeWhile_true contDefault rest a ha) hz.1
            constructor
            · rw [List.cons_append, good_cons_other sp c _ (not_ws_ne_space c hwf)]
              simp [hqf, hwf, hdf, hgr]
            · simp [headNotDigit, hdf]

/-- Dropping a prefix of default-run bytes preserves `Good false`. -/
theorem good_dropWhile_contDefault (l : List Nat) (h : Good false l = true) :
    Good false (l.dropWhile contDefault) = true := by
  induction l with
  | nil => simpa using h
  | cons c rs ih =>
    by_cases hc : contDefault c = true
    · rw [List.dropWhile_cons, if_pos hc]
      have hcd := hc
      simp only [contDefault, Bool.not_eq_true', Bool.or_eq_false_iff] at hcd
      rw [good_cons_other false c rs (not_ws_ne_space c hcd.2)] at h
      simp only [Bool.and_eq_true] at h
      exact ih h.2
    · rw [List.dropWhile_cons, if_neg hc]
      exact h

/-- A canonical text (in the sense of the shape invariant) is reproduced
verbatim by the token pass: each space is a whitespace token collapsing to
itself, and each maximal non-space run is a default token copied verbatim. -/
theorem canonJoin_fixed (n : Nat) : ∀ y : List Nat, y.length ≤ n →
    Good false y = true → headNotDigit y = true → canonJoin y = y := by
  induction n with
  | zero =>
    intro y hlen _ _
    have hy : y = [] := List.length_eq_zero.mp (Nat.le_zero.mp hlen)
    subst hy
    rfl
  | succ n ih =>
    intro y hlen hgood hhd
    cases y with
    | nil => rfl
    | cons c rest =>
      simp only [List.length_cons] at hlen
      by_cases hc : c = 32
      · subst hc
        rw [good_cons_space] at hgood
        simp only [Bool.not_false, Bool.true_and] at hgood
        obtain ⟨hgf, hhd2, htw⟩ := good_true_shape rest hgood
        have hlen1 : scanWsLen rest 1 = 1 := by
          rw [scanWsLen_eq, htw]
          rfl
        have hs : scanToken (32 :: rest) = some (1, TOKEN_WHITESPACE) := by
          rw [scanToken_ws_eq 32 rest (by decide) (by decide) (by decide), hlen1]
        have hp : pieceOf (32 :: rest) 1 TOKEN_WHITESPACE = some [32] := rfl
        rw [canonJoin_cons 32 rest 1 TOKEN_WHITESPACE [32] hs hp, List.drop_succ_cons,
          List.drop_zero, ih rest (by omega) hgf hhd2]
        rfl
      · have he : (c == 32) = false := by
          cases hee : c == 32
          · rfl
          · rw [beq_iff_eq] at hee
            exact absurd hee hc
        rw [good_cons_other false c rest he] at hgood
        simp only [Bool.and_eq_true, Bool.not_eq_true'] at hgood
        obtain ⟨⟨⟨hq, hw⟩, _⟩, hg⟩ := hgood
        have hd : isDigitB c = false := by simpa [headNotDigit] using hhd
        have hs := scanToken_default_eq c rest hq hd hw
        have hp : pieceOf (c :: rest) (scanDefaultLen rest 1) TOKEN_DEFAULT =
            some ((c :: rest).take (scanDefaultLen rest 1)) := rfl
        rw [canonJoin_cons c rest _ _ _ hs hp, drop_scanDefaultLen, take_scanDefaultLen]
        have hlen2 : (rest.dropWhile contDefault).length ≤ n := by
          have hb := length_dropWhile_le_len contDefault rest
          omega
        have hgd := good_dropWhile_contDefault rest hg
        have hnd : headNotDigit (rest.dropWhile contDefault) = true := by
          rcases dropWhile_head_not contDefault rest with h2 | ⟨c2, rs2, h2, hc2⟩
          · rw [h2]
            rfl
          · rw [h2]
            simp [headNotDigit, not_contDefault_not_digit c2 hc2]
        rw [ih (rest.dropWhile contDefault) hlen2 hgd hnd, List.cons_append,
          List.takeWhile_append_dropWhile]

/-- The token pass is idempotent: re-canonicalizing a canonical text
reproduces it. -/
theorem canonJoin_idem (q : List Nat) : canonJoin (canonJoin q) = canonJoin q := by
  have h := canonJoin_good q.length q false le_rfl (by intro h2; simp at h2)
  exact canonJoin_fixed (canonJoin q).length (canonJoin q) le_rfl h.1 h.2

/-! ## The `calculateTimes` loop -/

theorem ctStep_zero (a : CTAcc) : ctStep a 0 = a := by
  simp [ctStep]

/-- The loop's min update, `if val < min then val else min`, is `Nat.min`. -/
theorem minStep_eq_min (a v : Nat) : (if v < a then v else a) = min a v := by
  rw [Nat.min_def]
  by_cases h : v < a
  · rw [if_pos h, if_neg (Nat.not_le.mpr h)]
  · rw [if_neg h, if_pos (Nat.le_of_not_lt h)]

/-- The loop's max update, `if val > max then val else max`, is `Nat.max`. -/
theorem maxStep_eq_max (a v : Nat) : (if a < v then v else a) = max a v := by
  rw [Nat.max_def]
  by_cases h : a < v
  · rw [if_pos h, if_pos (Nat.le_of_lt h)]
  · by_cases h2 : a ≤ v
    · rw [if_neg h, if_pos h2]
      omega
    · rw [if_neg h, if_neg h2]

/-- One loop step on a nonzero sample once a minimum has been seen. -/
theorem ctStep_true (m M c t v : Nat) (hv : v ≠ 0) (hlt : t + v < 2 ^ 64) :
    ctStep ⟨m, M, c, t, true⟩ v = ⟨min m v, max M v, c + 1, t + v, true⟩ := by
  rw [← minStep_eq_min, ← maxStep_eq_max]
  unfold ctStep
  rw [if_neg hv]
  have hmod : (t + v) % 2 ^ 64 = t + v := Nat.mod_eq_of_lt hlt
  by_cases hvm : v < m
  · by_cases hMv : M < v
    · simp [hvm, hMv, hmod]; omega
    · simp [hvm, hMv, hmod]; omega
  · by_cases hMv : M < v
    · simp [hvm, hMv, hmod]; omega
    · simp [hvm, hMv, hmod]; omega

/-- The first nonzero sample initializes min, max, count and total. -/
theorem ctStep_init (v : Nat) (hv : v ≠ 0) (hlt : v < 2 ^ 64) :
    ctStep ⟨0, 0, 0, 0, false⟩ v = ⟨v, v, 1, v, true⟩ := by
  unfold ctStep
  rw [if_neg hv]
  have h1 : (0 : Nat) < v := Nat.pos_of_ne_zero hv
  have h2 : (0 + v) % 2 ^ 64 = v := by
    rw [Nat.zero_add]
    exact Nat.mod_eq_of_lt hlt
  simp [h1, h2]; omega

/-- Folding the loop from a seen-minimum state computes min/max/count/sum of
the nonzero samples (exactly, as the total stays below `2 ^ 64`). -/
theorem ctFold_true (l : List Nat) : ∀ m M c t : Nat,
    t + (l.filter (· != 0)).sum < 2 ^ 64 →
    l.foldl ctStep ⟨m, M, c, t, true⟩ =
      ⟨(l.filter (· != 0)).foldl min m, (l.filter (· != 0)).foldl max M,
        c + (l.filter (· != 0)).length, t + (l.filter (· != 0)).sum, true⟩ := by
  induction l with
  | nil =>
    intro m M c t h
    simp
  | cons v vs ih =>
    intro m M c t h
    by_cases hv : v = 0
    · subst hv
      have hfil : ((0 : Nat) :: vs).filter (· != 0) = vs.filter (· != 0) := by
        simp [List.filter_cons]
      rw [hfil] at h ⊢
      rw [List.foldl_cons, ctStep_zero]
      exact ih m M c t h
    · have hfil : (v :: vs).filter (· != 0) = v :: vs.filter (· != 0) := by
        simp [List.filter_cons, hv]
      rw [hfil] at h ⊢
      simp only [List.sum_cons] at h
      rw [List.foldl_cons, ctStep_true m M c t v hv (by omega)]
      rw [ih (min m v) (max M v) (c + 1) (t + v) (by omega)]
      simp only [List.foldl_cons, List.length_cons, List.sum_cons]
      congr 1
      · omega
      · omega

/-- Folding the loop from the zero-initialized accumulator. -/
theorem ctFold_start (l : List Nat) (h : (l.filter (· != 0)).sum < 2 ^ 64) :
    l.foldl ctStep ⟨0, 0, 0, 0, false⟩ =
      match l.filter (· != 0) with
      | [] => ⟨0, 0, 0, 0, false⟩
      | v :: vs => ⟨vs.foldl min v, vs.foldl max v, 1 + vs.length, v + vs.sum, true⟩ := by
  induction l with
  | nil => rfl
  | cons v vs ih =>
    by_cases hv : v = 0
    · subst hv
      have hfil : ((0 : Nat) :: vs).filter (· != 0) = vs.filter (· != 0) := by
        simp [List.filter_cons]
      rw [hfil] at h ⊢
      rw [List.foldl_cons, ctStep_zero]
      exact ih h
    · have hfil : (v :: vs).filter (· != 0) = v :: vs.filter (· != 0) := by
        simp [List.filter_cons, hv]
      rw [hfil] at h ⊢
      simp only [List.sum_cons] at h
      rw [List.foldl_cons, ctStep_init v hv (by omega),
        ctFold_true vs v v 1 v (by omega)]

/-! ## Field preservation through the post-carve processing -/

theorem processAfterCarve_reqbuffer (r : Bool) (pt : Int) (pd : List Nat) (s : SrcState) :
    (processAfterCarve r pt pd s).reqbuffer = s.reqbuffer := by
  unfold processAfterCarve
  split
  · rfl
  · split
    · split
      · rfl
      · rfl
    · rfl

theorem processAfterCarve_resbuffer (r : Bool) (pt : Int) (pd : List Nat) (s : SrcState) :
    (processAfterCarve r pt pd s).resbuffer = s.resbuffer := by
  unfold processAfterCarve
  split
  · rfl
  · split
    · split
      · rfl
      · rfl
    · rfl

theorem processAfterCarve_desyncs (r : Bool) (pt : Int) (pd : List Nat) (s : SrcState) :
    (processAfterCarve r pt pd s).desyncs = s.desyncs := by
  unfold processAfterCarve
  split
  · rfl
  · split
    · split
      · rfl
      · rfl
    · rfl

theorem processAfterCarve_synced (r : Bool) (pt : Int) (pd : List Nat) (s : SrcState) :
    (processAfterCarve r pt pd s).synced = s.synced := by
  unfold processAfterCarve
  split
  · rfl
  · split
    · split
      · rfl
      · rfl
    · rfl

/-! ## Claim theorems -/

/-- C1 (counterexample): the claim says `processPacket` appends delivered
bytes to the direction's existing buffer, so a frame split across two request
deliveries is carved after the second.  On a synced flow, delivering the first
5 bytes of a 10-byte `COM_QUERY` frame and then the remaining 5 bytes leaves
the request buffer holding only the second chunk, no query is counted and no
request timestamp is set — while the concatenation of the two chunks would
carve as a `COM_QUERY` frame. -/
theorem c1_counterexample :
    (processPacket true [83, 69, 76, 69, 67]
        (processPacket true [6, 0, 0, 0, 3]
          ⟨true, none, none, false, 0, 0, 0, 0⟩)).reqbuffer = some [83, 69, 76, 69, 67] ∧
    (processPacket true [83, 69, 76, 69, 67]
        (processPacket true [6, 0, 0, 0, 3]
          ⟨true, none, none, false, 0, 0, 0, 0⟩)).querycount = 0 ∧
    (processPacket true [83, 69, 76, 69, 67]
        (processPacket true [6, 0, 0, 0, 3]
          ⟨true, none, none, false, 0, 0, 0, 0⟩)).reqSentSet = false ∧
    carvePacket ([6, 0, 0, 0, 3] ++ [83, 69, 76, 69, 67]) =
      (3, [83, 69, 76, 69, 67], none) := by
  decide

/-- C1 (amended): `processPacket` replaces the direction's buffer with the
delivered bytes before invoking the frame carver (`rs.reqbuffer = data`), so
the post-state buffer is the carver's leftover computed from the delivered
bytes alone, independent of anything previously buffered; previously buffered
partial-frame bytes are discarded, and a frame split across two deliveries is
never carved. -/
theorem c1_buffer_replaced (data : List Nat) (s : SrcState) (hs : s.synced = true) :
    (processPacket false data s).resbuffer = (carvePacket data).2.2 ∧
    (s.resbuffer = none →
      (processPacket true data s).reqbuffer = (carvePacket data).2.2) := by
  constructor
  · simp [processPacket, hs, processAfterCarve_resbuffer]
  · intro hrb
    simp [processPacket, hs, hrb, processAfterCarve_reqbuffer]

/-- C1 (witness): on a synced flow with stale bytes in the request buffer and
an empty response buffer, both direction buffers after a delivery equal the
carver leftover of the delivered bytes alone. -/
theorem c1_witness :
    (processPacket false [6, 0, 0, 0, 3, 83, 69, 76, 69, 67]
        ⟨true, some [1, 2], none, true, 0, 0, 0, 0⟩).resbuffer =
      (carvePacket [6, 0, 0, 0, 3, 83, 69, 76, 69, 67]).2.2 ∧
    (processPacket true [6, 0, 0, 0, 3, 83, 69, 76, 69, 67]
        ⟨true, some [1, 2], none, true, 0, 0, 0, 0⟩).reqbuffer =
      (carvePacket [6, 0, 0, 0, 3, 83, 69, 76, 69, 67]).2.2 := by
  have h := c1_buffer_replaced [6, 0, 0, 0, 3, 83, 69, 76, 69, 67]
    ⟨true, some [1, 2], none, true, 0, 0, 0, 0⟩ rfl
  exact ⟨h.1, h.2 rfl⟩

/-- C2: a flow is created unsynced (`&source{..., synced: false}`); while
unsynced, a payload sets `synced` exactly when it is a request whose carve
yields command type `COM_QUERY`; in every other unsynced outcome both buffers
are discarded, the flow stays unsynced, and processing stops (`reqSent` and
the query counter are untouched). -/
theorem c2_sync_transition :
    newSource.synced = false ∧
    (∀ (request : Bool) (data : List Nat) (s : SrcState), s.synced = false →
      request = true → (carvePacket data).1 = COM_QUERY →
      (processPacket request data s).synced = true) ∧
    (∀ (request : Bool) (data : List Nat) (s : SrcState), s.synced = false →
      ¬ (request = true ∧ (carvePacket data).1 = COM_QUERY) →
      (processPacket request data s).synced = false ∧
      (processPacket request data s).reqbuffer = none ∧
      (processPacket request data s).resbuffer = none ∧
      (processPacket request data s).reqSentSet = s.reqSentSet ∧
      (processPacket request data s).querycount = s.querycount) := by
  refine ⟨rfl, ?_, ?_⟩
  · intro request data s hs hreq hcarve
    subst hreq
    by_cases hrb : s.resbuffer = none
    · simp [processPacket, hs, hrb, hcarve, processAfterCarve_synced]
    · simp [processPacket, hs, hrb, hcarve, processAfterCarve_synced]
  · intro request data s hs hnot
    cases request with
    | true =>
      have hq : ¬ ((carvePacket data).1 = COM_QUERY) := fun hc => hnot ⟨rfl, hc⟩
      by_cases hrb : s.resbuffer = none
      · simp [processPacket, hs, hrb, hq]
      · simp [processPacket, hs, hrb, hq]
    | false =>
      simp [processPacket, hs]

/-- C2 (witness): a fresh flow is unsynced; a request payload carrying one
complete `COM_QUERY` frame syncs it, while a response payload leaves it
unsynced with both buffers dropped. -/
theorem c2_witness :
    newSource.synced = false ∧
    (processPacket true [1, 0, 0, 0, 3] newSource).synced = true ∧
    (processPacket false [1, 0, 0, 0, 3] newSource).synced = false ∧
    (processPacket false [1, 0, 0, 0, 3] newSource).resbuffer = none := by
  refine ⟨c2_sync_transition.1, ?_, ?_, ?_⟩
  · exact c2_sync_transition.2.1 true [1, 0, 0, 0, 3] newSource rfl rfl (by decide)
  · exact (c2_sync_transition.2.2 false [1, 0, 0, 0, 3] newSource rfl (by simp)).1
  · exact (c2_sync_transition.2.2 false [1, 0, 0, 0, 3] newSource rfl (by simp)).2.2.1

/-- C3 (counterexample): the claim says two consecutive complete request
frames on a synced flow with no response in between increment the desync
counter once, clear the response buffer and unsync the flow.  Starting from a
fresh flow, a `COM_QUERY` request syncs it with an empty (`nil`) response
buffer; a second identical request then finds `resbuffer == nil`, so the
desync branch does not fire: the counter stays 0 and the flow stays synced. -/
theorem c3_counterexample :
    (processPacket true [1, 0, 0, 0, 3] newSource).synced = true ∧
    (processPacket true [1, 0, 0, 0, 3] newSource).resbuffer = none ∧
    (processPacket true [1, 0, 0, 0, 3]
      (processPacket true [1, 0, 0, 0, 3] newSource)).desyncs = 0 ∧
    (processPacket true [1, 0, 0, 0, 3]
      (processPacket true [1, 0, 0, 0, 3] newSource)).synced = true := by
  decide

/-- C3 (amended): on a synced flow a request payload records a desync exactly
when the response buffer is non-`nil` (an incompletely processed response is
outstanding): then the desync counter increments by one, the response buffer
is cleared, and the flow ends synced iff the request carves a `COM_QUERY`
frame (it is first unsynced, then instantly re-synced by such a frame).  With
an empty response buffer — in particular for two consecutive complete request
payloads with no response in between — the desync counter is untouched and
the flow stays synced. -/
theorem c3_desync_condition (data : List Nat) (s : SrcState) (hs : s.synced = true) :
    (s.resbuffer = none →
      (processPacket true data s).desyncs = s.desyncs ∧
      (processPacket true data s).synced = true) ∧
    (s.resbuffer ≠ none →
      (processPacket true data s).desyncs = s.desyncs + 1 ∧
      (processPacket true data s).resbuffer = none ∧
      ((processPacket true data s).synced = true ↔
        (carvePacket data).1 = COM_QUERY)) := by
  constructor
  · intro hrb
    simp [processPacket, hs, hrb, processAfterCarve_desyncs, processAfterCarve_synced]
  · intro hrb
    by_cases hq : (carvePacket data).1 = COM_QUERY
    · simp [processPacket, hs, hrb, hq, processAfterCarve_desyncs,
        processAfterCarve_synced, processAfterCarve_resbuffer]
    · simp [processPacket, hs, hrb, hq, processAfterCarve_desyncs,
        processAfterCarve_synced, processAfterCarve_resbuffer]

/-- C3 (witness): on a synced flow with a leftover response byte, a request
payload increments the desync counter, clears the response buffer, and (being
a complete `COM_QUERY` frame) immediately re-syncs the flow; with an empty
response buffer the counter stays put. -/
theorem c3_witness :
    ((processPacket true [1, 0, 0, 0, 3]
        ⟨true, none, some [9], false, 0, 0, 0, 0⟩).desyncs = 0 + 1 ∧
      (processPacket true [1, 0, 0, 0, 3]
        ⟨true, none, some [9], false, 0, 0, 0, 0⟩).resbuffer = none ∧
      ((processPacket true [1, 0, 0, 0, 3]
          ⟨true, none, some [9], false, 0, 0, 0, 0⟩).synced = true ↔
        (carvePacket [1, 0, 0, 0, 3]).1 = COM_QUERY)) ∧
    (processPacket true [1, 0, 0, 0, 3]
      ⟨true, none, none, false, 0, 0, 0, 0⟩).desyncs = 0 := by
  constructor
  · exact (c3_desync_condition [1, 0, 0, 0, 3]
      ⟨true, none, some [9], false, 0, 0, 0, 0⟩ rfl).2 (by simp)
  · exact ((c3_desync_condition [1, 0, 0, 0, 3]
      ⟨true, none, none, false, 0, 0, 0, 0⟩ rfl).1 rfl).1

/-- C4: on a buffer of exactly `size + 4` bytes whose first three bytes
little-endian-encode `size > 0`, `carvePacket` returns the command byte at
offset 4 and the payload bytes `[5, size+4)` (length `size - 1`), and empties
the buffer. -/
theorem c4_carve_exact (b0 b1 b2 b3 b4 : Nat) (rest : List Nat)
    (hsize : (b0 :: b1 :: b2 :: b3 :: b4 :: rest).length = b0 + b1 * 256 + b2 * 65536 + 4)
    (hpos : 0 < b0 + b1 * 256 + b2 * 65536) :
    carvePacket (b0 :: b1 :: b2 :: b3 :: b4 :: rest) = ((b4 : Int), rest, none) := by
  have hlen : rest.length + 1 = b0 + b1 * 256 + b2 * 65536 := by
    simp only [List.length_cons] at hsize
    omega
  simp only [carvePacket, List.length_cons]
  rw [if_neg (by omega : ¬ (rest.length + 1 + 1 + 1 + 1 + 1 < 5))]
  have hc2 : ¬ ((b0 :: b1 :: b2 :: b3 :: b4 :: rest).getD 0 0 +
      (b0 :: b1 :: b2 :: b3 :: b4 :: rest).getD 1 0 * 256 +
      (b0 :: b1 :: b2 :: b3 :: b4 :: rest).getD 2 0 * 65536 = 0 ∨
      rest.length + 1 + 1 + 1 + 1 + 1 <
        (b0 :: b1 :: b2 :: b3 :: b4 :: rest).getD 0 0 +
        (b0 :: b1 :: b2 :: b3 :: b4 :: rest).getD 1 0 * 256 +
        (b0 :: b1 :: b2 :: b3 :: b4 :: rest).getD 2 0 * 65536 + 4) := by
    show ¬ (b0 + b1 * 256 + b2 * 65536 = 0 ∨
      rest.length + 1 + 1 + 1 + 1 + 1 < b0 + b1 * 256 + b2 * 65536 + 4)
    omega
  rw [if_neg hc2]
  show ((b4 : Int), rest.take (b0 + b1 * 256 + b2 * 65536 - 1),
      if rest.length + 1 + 1 + 1 + 1 + 1 ≤ b0 + b1 * 256 + b2 * 65536 + 4 then none
      else some ((b0 :: b1 :: b2 :: b3 :: b4 :: rest).drop
        (b0 + b1 * 256 + b2 * 65536 + 4))) = ((b4 : Int), rest, none)
  rw [if_pos (by omega), (by omega : b0 + b1 * 256 + b2 * 65536 - 1 = rest.length),
    List.take_length]

/-- C4 (witness): the frame `[6,0,0, seq 0, cmd 3, "SELEC"]` of exactly
`6 + 4` bytes carves to command 3 with the 5 payload bytes, emptying the
buffer. -/
theorem c4_witness :
    carvePacket [6, 0, 0, 0, 3, 83, 69, 76, 69, 67] =
      ((3 : Int), [83, 69, 76, 69, 67], none) :=
  c4_carve_exact 6 0 0 0 3 [83, 69, 76, 69, 67] (by decide) (by decide)

/-- C5: `carvePacket` reports "incomplete" (`-1`, no payload) and returns the
buffer unmodified whenever the buffer is shorter than 5 bytes, the 24-bit
little-endian size is zero, or the buffer holds fewer than `size + 4`
bytes. -/
theorem c5_carve_incomplete (buf : List Nat)
    (h : buf.length < 5 ∨
      buf.getD 0 0 + buf.getD 1 0 * 256 + buf.getD 2 0 * 65536 = 0 ∨
      buf.length < buf.getD 0 0 + buf.getD 1 0 * 256 + buf.getD 2 0 * 65536 + 4) :
    carvePacket buf = (-1, [], some buf) := by
  simp only [carvePacket]
  by_cases h5 : buf.length < 5
  · rw [if_pos h5]
  · rw [if_neg h5]
    have h2 : buf.getD 0 0 + buf.getD 1 0 * 256 + buf.getD 2 0 * 65536 = 0 ∨
        buf.length < buf.getD 0 0 + buf.getD 1 0 * 256 + buf.getD 2 0 * 65536 + 4 := by
      rcases h with h | h | h
      · exact absurd h h5
      · exact Or.inl h
      · exact Or.inr h
    rw [if_pos h2]

/-- C5 (witness): a 5-byte buffer declaring size 0 and a 2-byte buffer are
both reported incomplete with the buffer untouched. -/
theorem c5_witness :
    carvePacket [0, 0, 0, 0, 0] = (-1, [], some [0, 0, 0, 0, 0]) ∧
    carvePacket [7, 7] = (-1, [], some [7, 7]) :=
  ⟨c5_carve_incomplete [0, 0, 0, 0, 0] (by decide),
   c5_carve_incomplete [7, 7] (by decide)⟩

/-- C6 (code evaluated at the failing input): canonicalizing
`SELECT * FROM t WHERE id = 42 AND name = 'bob'` yields
`SELECT * FROM t WHERE id = ? AND name = ??` — a double placeholder — because
the quote scan returns the index of the closing quote without consuming it
(`return i`), leaving the quote byte to start a second quote token; the
claimed (and intended) output has a single `?`. -/
theorem c6_quote_not_consumed :
    cleanupQuery [83, 69, 76, 69, 67, 84, 32, 42, 32, 70, 82, 79, 77, 32, 116, 32,
        87, 72, 69, 82, 69, 32, 105, 100, 32, 61, 32, 52, 50, 32, 65, 78, 68, 32,
        110, 97, 109, 101, 32, 61, 32, 39, 98, 111, 98, 39] =
      [83, 69, 76, 69, 67, 84, 32, 42, 32, 70, 82, 79, 77, 32, 116, 32,
        87, 72, 69, 82, 69, 32, 105, 100, 32, 61, 32, 63, 32, 65, 78, 68, 32,
        110, 97, 109, 101, 32, 61, 32, 63, 63] ∧
    scanToken [39, 98, 111, 98, 39] = some (4, TOKEN_QUOTE) := by
  decide

/-- C7 (code evaluated at the failing input): the default scan's first switch
case ("Numbers, allow.") lets digits continue a literal run, so `s2compiled`
scans as one single 10-byte literal token and canonicalizes to itself — not as
a literal run ending before the `2` followed by a numeric token (which the
file's own header FIXME, `s2compiled -> s?compiled`, describes). -/
theorem c7_digit_kept_in_literal_run :
    scanToken [115, 50, 99, 111, 109, 112, 105, 108, 101, 100] =
      some (10, TOKEN_DEFAULT) ∧
    cleanupQuery [115, 50, 99, 111, 109, 112, 105, 108, 101, 100] =
      [115, 50, 99, 111, 109, 112, 105, 108, 101, 100] := by
  decide

/-- C8 (counterexample): `cleanupQuery` is not idempotent.  On
`X /* a:b:c */ y z` the route rewrite strips one colon-prefix per
application: the first yields `X /* b:c */ y z`, the second `X /* c */ y z`. -/
theorem c8_counterexample :
    cleanupQuery [88, 32, 47, 42, 32, 97, 58, 98, 58, 99, 32, 42, 47, 32, 121, 32, 122] =
      [88, 32, 47, 42, 32, 98, 58, 99, 32, 42, 47, 32, 121, 32, 122] ∧
    cleanupQuery (cleanupQuery
        [88, 32, 47, 42, 32, 97, 58, 98, 58, 99, 32, 42, 47, 32, 121, 32, 122]) =
      [88, 32, 47, 42, 32, 99, 32, 42, 47, 32, 121, 32, 122] ∧
    cleanupQuery (cleanupQuery
        [88, 32, 47, 42, 32, 97, 58, 98, 58, 99, 32, 42, 47, 32, 121, 32, 122]) ≠
      cleanupQuery [88, 32, 47, 42, 32, 97, 58, 98, 58, 99, 32, 42, 47, 32, 121, 32, 122] := by
  decide

/-- C8 (amended): `cleanupQuery` is idempotent on every input on which the
route-comment rewrite leaves the joined canonical text unchanged (in
particular whenever the canonical text does not have the shape
`tok0 /* ann */ rest` with a colon in `ann`): the token pass itself always
reproduces canonical text verbatim (`canonJoin_idem`), so only the rewrite
can break the fixed point. -/
theorem c8_idempotent_no_rewrite (q : List Nat)
    (h : routeRewrite (canonJoin q) = canonJoin q) :
    cleanupQuery (cleanupQuery q) = cleanupQuery q := by
  have h1 : cleanupQuery q = canonJoin q := by
    rw [cleanupQuery_eq, h]
  rw [h1, cleanupQuery_eq, canonJoin_idem, h]

/-- C8 (witness): on `SELECT * FROM t` the rewrite does not fire and
canonicalization is a fixed point after one application. -/
theorem c8_witness :
    routeRewrite (canonJoin [83, 69, 76, 69, 67, 84, 32, 42, 32, 70, 82, 79, 77, 32, 116]) =
      canonJoin [83, 69, 76, 69, 67, 84, 32, 42, 32, 70, 82, 79, 77, 32, 116] ∧
    cleanupQuery (cleanupQuery [83, 69, 76, 69, 67, 84, 32, 42, 32, 70, 82, 79, 77, 32, 116]) =
      cleanupQuery [83, 69, 76, 69, 67, 84, 32, 42, 32, 70, 82, 79, 77, 32, 116] :=
  ⟨by decide, c8_idempotent_no_rewrite
    [83, 69, 76, 69, 67, 84, 32, 42, 32, 70, 82, 79, 77, 32, 116] (by decide)⟩

/-- C9 (counterexample): the average is computed in wrapping `uint64`
arithmetic, so it is not always the integer-truncated mean of the nonzero
samples: with two samples of `2 ^ 63` the running total wraps to 0 and the
returned average is 0, while the truncated mean is `2 ^ 63`. -/
theorem c9_counterexample :
    (calculateTimes ([2 ^ 63, 2 ^ 63] ++ List.replicate 98 0)).2.1 = 0 ∧
    (([2 ^ 63, 2 ^ 63] ++ List.replicate 98 0).filter (· != 0)).sum /
      (([2 ^ 63, 2 ^ 63] ++ List.replicate 98 0).filter (· != 0)).length = 2 ^ 63 ∧
    (calculateTimes ([2 ^ 63, 2 ^ 63] ++ List.replicate 98 0)).2.1 ≠
      ((2 ^ 63 : ℚ) / 1000000) := by
  have hf : ([2 ^ 63, 2 ^ 63] ++ List.replicate 98 0).foldl ctStep ⟨0, 0, 0, 0, false⟩ =
      ⟨2 ^ 63, 2 ^ 63, 2, 0, true⟩ := by decide
  have h1 : (calculateTimes ([2 ^ 63, 2 ^ 63] ++ List.replicate 98 0)).2.1 = 0 := by
    simp only [calculateTimes, hf]
    norm_num
  refine ⟨h1, by decide, ?_⟩
  rw [h1]
  intro hcontra
  norm_num at hcontra

/-- C9 (amended): over a 100-slot samples array whose nonzero entries sum to
less than `2 ^ 64` (no `uint64` wrap of the running total), `calculateTimes`
ignores every zero-sentinel slot and returns the minimum, integer-truncated
mean and maximum of the remaining slots, each divided by 1,000,000; an
all-zero array yields `(0, 0, 0)`. -/
theorem c9_summary (l : List Nat) (hlen : l.length = 100)
    (hof : (l.filter (· != 0)).sum < 2 ^ 64) :
    calculateTimes l =
      ((((l.filter (· != 0)).min?.getD 0 : Nat) : ℚ) / 1000000,
       (((l.filter (· != 0)).sum / (l.filter (· != 0)).length : Nat) : ℚ) / 1000000,
       (((l.filter (· != 0)).max?.getD 0 : Nat) : ℚ) / 1000000) := by
  simp only [calculateTimes]
  rw [ctFold_start l hof]
  rcases hfil : l.filter (· != 0) with _ | ⟨v, vs⟩
  · simp
  · have hmin : ((v :: vs).min?).getD 0 = vs.foldl min v := rfl
    have hmax : ((v :: vs).max?).getD 0 = vs.foldl max v := rfl
    have hcount : (0 : Nat) < 1 + vs.length := by omega
    simp only [hmin, hmax, List.sum_cons, List.length_cons, hcount, if_pos]
    rw [Nat.add_comm 1 vs.length]

/-- C9 (witness): nonzero samples 10, 20, 30 among 97 zero slots give
min 10/1e6 ms, truncated mean 20/1e6 ms, max 30/1e6 ms. -/
theorem c9_witness :
    ([10, 20, 30] ++ List.replicate 97 0).length = 100 ∧
    calculateTimes ([10, 20, 30] ++ List.replicate 97 0) =
      ((10 : ℚ) / 1000000, (20 : ℚ) / 1000000, (30 : ℚ) / 1000000) := by
  refine ⟨by decide, ?_⟩
  have h := c9_summary ([10, 20, 30] ++ List.replicate 97 0) (by decide) (by decide)
  have h1 : ((([10, 20, 30] ++ List.replicate 97 0).filter (· != 0)).min?).getD 0 = 10 := by
    decide
  have h2 : (([10, 20, 30] ++ List.replicate 97 0).filter (· != 0)).sum /
      (([10, 20, 30] ++ List.replicate 97 0).filter (· != 0)).length = 20 := by decide
  have h3 : ((([10, 20, 30] ++ List.replicate 97 0).filter (· != 0)).max?).getD 0 = 30 := by
    decide
  rw [h, h1, h2, h3]
  norm_num

/-- C10: on every non-empty input `scanToken` returns a length between 1 and
the input length and a token kind among the four constants (`≤ 3`); hence the
loop of `cleanupQuery` strictly advances and terminates on every input — the
`Option` models the two `log.Fatalf` branches ("called with empty query" and
"invalid token type") and is always `some`, with the empty query mapping to
the empty string. -/
theorem c10_totality :
    (∀ (c : Nat) (rest : List Nat), ∃ len ty,
      scanToken (c :: rest) = some (len, ty) ∧
      1 ≤ len ∧ len ≤ (c :: rest).length ∧ ty ≤ 3) ∧
    (∀ q : List Nat, (cleanupQueryOpt q).isSome = true) ∧
    cleanupQueryOpt [] = some [] := by
  refine ⟨?_, cleanupQueryOpt_isSome, rfl⟩
  intro c rest
  obtain ⟨len, ty, hs, h1, h2, h3, _⟩ := scanToken_spec c rest
  exact ⟨len, ty, hs, h1, h2, h3⟩
